import Mathlib

/-!
Verification of the FiveM configuration parser (`src/config.rs`).

The parser is embedded shallowly: lines and tokens are `List Char`,
the `HashMap` convar stores are modelled by their observable lookup
function, file I/O by a map from file names to optional contents, and
recursion through `exec` by explicit fuel.  Rust panics (out-of-bounds
indexing, failure to open a file) are a distinct `PResult.panic`
outcome; `Err(&str)` returns are `PResult.err`.
-/

/-- Shorthand: the character list of a string literal. -/
def str (s : String) : List Char := s.data

/-- The configuration record accumulated by the parser
(struct `FivemConfig` in `src/config.rs`).  The two `HashMap` fields are
modelled by their lookup functions. -/
structure FivemConfig where
  hostname : List Char
  resources : List (List Char)
  convars : List Char → Option (List Char)
  convars_replicated : List Char → Option (List Char)
  allow_scripthook : Bool
  rcon_password : List Char
  licensekey : List Char
  server_icon : List Char
  max_clients : Nat

/-- `HashMap::insert`: point-wise overwrite of the lookup function. -/
def mapInsert (k v : List Char) (m : List Char → Option (List Char)) :
    List Char → Option (List Char) :=
  fun q => if q = k then some v else m q

/-- The loop of `config_line_split`: scan characters keeping the
in-quote flag, the current part and the list of finished parts
(`src/config.rs` lines 155-178). -/
def splitLoop : List Char → Bool → List Char → List (List Char) → List (List Char)
  | [], _, part, parts => if part = [] then parts else parts ++ [part]
  | c :: cs, inq, part, parts =>
    if c = '"' then
      splitLoop cs (!inq) part parts
    else if c = ' ' ∧ inq = false then
      if part = [] then splitLoop cs inq [] parts
      else splitLoop cs inq [] (parts ++ [part])
    else
      splitLoop cs inq (part ++ [c]) parts

/-- `config_line_split`: break a line into arguments, splitting on
spaces but honouring double-quote grouping. -/
def config_line_split (line : List Char) : List (List Char) :=
  splitLoop line false [] []

/-- Outcome of a parse step: `ok` carries the (possibly updated) record,
`err` a hard `Err` return, `panic` a Rust panic (missing file or
out-of-bounds index), `nofuel` exhaustion of the recursion fuel. -/
inductive PResult where
  | ok : FivemConfig → PResult
  | err : String → PResult
  | panic : PResult
  | nofuel : PResult

/-- `String::starts_with("#")` on a line. -/
def startsWithHash : List Char → Bool
  | '#' :: _ => true
  | _ => false

/-- One step of Rust's `u16` digit accumulation with overflow check. -/
def parseU16Digits : List Char → Nat → Option Nat
  | [], acc => some acc
  | c :: cs, acc =>
    if c.isDigit then
      let v := acc * 10 + (c.toNat - '0'.toNat)
      if v < 65536 then parseU16Digits cs v else none
    else none

/-- `str::parse::<u16>()`: optional leading `+`, then one or more
decimal digits whose value fits in 16 bits. -/
def parseU16 (s : List Char) : Option Nat :=
  let digits := match s with
    | '+' :: rest => rest
    | _ => s
  if digits = [] then none else parseU16Digits digits 0

/-- The dispatcher: the body of the `for line in lines` loop of
`parse_file` (`src/config.rs` lines 191-242) for a single line.
`execFn` is the recursive call performed by the `exec` directive.
`ok` means "continue with this record"; any other outcome is returned
to the caller at once. -/
def parse_line (execFn : FivemConfig → List Char → PResult)
    (config : FivemConfig) (line : List Char) : PResult :=
  if startsWithHash line then .ok config
  else
    match config_line_split line with
    | [] => .ok config
    | kw :: args =>
      if kw = str "sv_hostname" then
        match args with
        | [] => .panic
        | v :: _ => .ok { config with hostname := v }
      else if kw = str "start" ∨ kw = str "ensure" then
        match args with
        | [] => .panic
        | v :: _ => .ok { config with resources := config.resources ++ [v] }
      else if kw = str "set" then
        match args with
        | [] => .panic
        | k :: rest => .ok { config with convars := mapInsert k (rest.headD []) config.convars }
      else if kw = str "setr" then
        match args with
        | [] => .panic
        | k :: rest => .ok { config with convars_replicated := mapInsert k (rest.headD []) config.convars_replicated }
      else if kw = str "sv_scriptHookAllowed" then
        match args with
        | [] => .panic
        | v :: _ => .ok { config with allow_scripthook := v == str "1" }
      else if kw = str "rcon_password" then
        match args with
        | [] => .panic
        | v :: _ => .ok { config with rcon_password := v }
      else if kw = str "sv_licenseKey" then
        match args with
        | [] => .panic
        | v :: _ => .ok { config with licensekey := v }
      else if kw = str "load_server_icon" then
        match args with
        | [] => .panic
        | v :: _ => .ok { config with server_icon := v }
      else if kw = str "sv_maxclients" then
        match args with
        | [] => .panic
        | v :: _ =>
          match parseU16 v with
          | some n => .ok { config with max_clients := n }
          | none => .err "Max clients is not a number!"
      else if kw = str "exec" then
        match args with
        | [] => .panic
        | v :: _ =>
          match execFn config v with
          | .ok c2 => .ok c2
          | r => r
      else .ok config

/-- The `for` loop of `parse_file`: feed each line to the dispatcher,
stopping at the first outcome that is not a continuation. -/
def parse_lines (execFn : FivemConfig → List Char → PResult) :
    FivemConfig → List (List Char) → PResult
  | config, [] => .ok config
  | config, line :: rest =>
    match parse_line execFn config line with
    | .ok c => parse_lines execFn c rest
    | r => r

/-- `replace("\r", "\n")` on one character. -/
def replCR (c : Char) : Char := if c = '\r' then '\n' else c

/-- `split("\n")` on a character list (Rust's `str::split` semantics:
a trailing separator yields a trailing empty piece, the empty input
yields one empty piece). -/
def splitNL : List Char → List (List Char)
  | [] => [[]]
  | c :: cs =>
    match splitNL cs with
    | [] => [[c]]
    | p :: ps => if c = '\n' then [] :: p :: ps else (c :: p) :: ps

/-- Lines of a file's contents: CR normalised to LF, then split on LF
(`src/config.rs` lines 186-189). -/
def toLines (contents : List Char) : List (List Char) :=
  splitNL (contents.map replCR)

/-- A file system: file name to optional contents. -/
def FS : Type := List Char → Option (List Char)

/-- `parse_file`: open the file (panic when absent), split the contents
into lines and run the dispatcher loop, recursing through `exec` with
one unit of fuel consumed per nested file. -/
def parse_file : Nat → FS → FivemConfig → List Char → PResult
  | 0, _, _, _ => .nofuel
  | fuel + 1, fs, config, file_name =>
    match fs file_name with
    | none => .panic
    | some contents =>
      parse_lines (fun c n => parse_file fuel fs c n) config (toLines contents)

/-- Parse the already-read contents of one file (the part of
`parse_file` after the file has been read). -/
def parse_content (fuel : Nat) (fs : FS) (config : FivemConfig)
    (contents : List Char) : PResult :=
  parse_lines (fun c n => parse_file fuel fs c n) config (toLines contents)

/-- The record defaults constructed by `read_config_file`
(`src/config.rs` lines 250-260). -/
def defaultConfig : FivemConfig where
  hostname := []
  resources := []
  convars := fun _ => none
  convars_replicated := fun _ => none
  allow_scripthook := true
  rcon_password := []
  licensekey := []
  server_icon := []
  max_clients := 0

/-- `read_config_file`: parse starting from the default record. -/
def read_config_file (fuel : Nat) (fs : FS) (file_name : List Char) : PResult :=
  parse_file fuel fs defaultConfig file_name

/-- Observe the hostname of a successful parse. -/
def hostnameOf : PResult → Option (List Char)
  | .ok c => some c.hostname
  | _ => none

/-- Observe the resource list of a successful parse. -/
def resourcesOf : PResult → Option (List (List Char))
  | .ok c => some c.resources
  | _ => none

/-- Observe one convar of a successful parse. -/
def convarOf (k : List Char) : PResult → Option (List Char)
  | .ok c => c.convars k
  | _ => none

/-- Observe one replicated convar of a successful parse. -/
def replicatedOf (k : List Char) : PResult → Option (List Char)
  | .ok c => c.convars_replicated k
  | _ => none

/-- Observe the max-clients field of a successful parse. -/
def maxClientsOf : PResult → Option Nat
  | .ok c => some c.max_clients
  | _ => none

/-- Join tokens with single spaces. -/
def joinSpace : List (List Char) → List Char
  | [] => []
  | [t] => t
  | t :: ts => t ++ ' ' :: joinSpace ts

/-- A line has balanced quotes when its `"` count is even. -/
def balancedQuotes (line : List Char) : Prop := line.count '"' % 2 = 0

theorem splitLoop_no_quote (cs : List Char) : ∀ (inq : Bool) (part : List Char)
    (parts : List (List Char)), '"' ∉ part → (∀ t ∈ parts, '"' ∉ t) →
    ∀ t ∈ splitLoop cs inq part parts, '"' ∉ t := by
  induction cs with
  | nil =>
    intro inq part parts hp hps t ht
    simp only [splitLoop] at ht
    by_cases h : part = []
    · simp [h] at ht; exact hps t ht
    · simp [h, List.mem_append] at ht
      rcases ht with h1 | h1
      · exact hps t h1
      · exact h1 ▸ hp
  | cons c cs ih =>
    intro inq part parts hp hps t ht
    simp only [splitLoop] at ht
    by_cases hq : c = '"'
    · simp only [hq, if_pos rfl] at ht
      exact ih _ _ _ hp hps t ht
    · rw [if_neg hq] at ht
      by_cases hs : c = ' ' ∧ inq = false
      · rw [if_pos hs] at ht
        by_cases hpe : part = []
        · rw [if_pos hpe] at ht
          exact ih _ _ _ (by simp) hps t ht
        · rw [if_neg hpe] at ht
          refine ih _ _ _ (by simp) ?_ t ht
          intro u hu
          rcases List.mem_append.mp hu with h1 | h1
          · exact hps u h1
          · simp at h1; exact h1 ▸ hp
      · rw [if_neg hs] at ht
        refine ih _ _ _ ?_ hps t ht
        simp [List.mem_append]
        exact ⟨fun h => hp h, fun h => hq h.symm⟩

theorem splitLoop_no_empty (cs : List Char) : ∀ (inq : Bool) (part : List Char)
    (parts : List (List Char)), (∀ t ∈ parts, t ≠ []) →
    ∀ t ∈ splitLoop cs inq part parts, t ≠ [] := by
  induction cs with
  | nil =>
    intro inq part parts hps t ht
    simp only [splitLoop] at ht
    by_cases h : part = []
    · simp [h] at ht; exact hps t ht
    · simp [h, List.mem_append] at ht
      rcases ht with h1 | h1
      · exact hps t h1
      · exact h1 ▸ h
  | cons c cs ih =>
    intro inq part parts hps t ht
    simp only [splitLoop] at ht
    by_cases hq : c = '"'
    · rw [if_pos hq] at ht; exact ih _ _ _ hps t ht
    · rw [if_neg hq] at ht
      by_cases hs : c = ' ' ∧ inq = false
      · rw [if_pos hs] at ht
        by_cases hpe : part = []
        · rw [if_pos hpe] at ht; exact ih _ _ _ hps t ht
        · rw [if_neg hpe] at ht
          refine ih _ _ _ ?_ t ht
          intro u hu
          rcases List.mem_append.mp hu with h1 | h1
          · exact hps u h1
          · simp at h1; exact h1 ▸ hpe
      · rw [if_neg hs] at ht
        exact ih _ _ _ hps t ht

theorem splitLoop_all_space (cs : List Char) (h : ∀ c ∈ cs, c = ' ') :
    ∀ parts, splitLoop cs false [] parts = parts := by
  induction cs with
  | nil => intro parts; simp [splitLoop]
  | cons c cs ih =>
    intro parts
    have hc : c = ' ' := h c (by simp)
    have hrest : ∀ c ∈ cs, c = ' ' := fun c hc2 => h c (by simp [hc2])
    simp only [splitLoop, hc]
    rw [if_neg (by decide), if_pos (by simp)]
    simpa using ih hrest parts
theorem splitLoop_clean_append (t : List Char) (hs : ' ' ∉ t) (hq : '"' ∉ t) :
    ∀ (cs part : List Char) (parts : List (List Char)),
    splitLoop (t ++ cs) false part parts = splitLoop cs false (part ++ t) parts := by
  induction t with
  | nil => intro cs part parts; simp
  | cons c t ih =>
    intro cs part parts
    have hcq : ¬ c = '"' := fun h => hq (by simp [h])
    have hcs : ¬ c = ' ' := fun h => hs (by simp [h])
    simp only [List.cons_append, splitLoop]
    rw [if_neg hcq, if_neg (by simp [hcs])]
    have e : t.append cs = t ++ cs := rfl
    rw [e, ih (fun h => hs (by simp [h])) (fun h => hq (by simp [h]))]
    simp

theorem splitLoop_join (ts : List (List Char))
    (h : ∀ t ∈ ts, t ≠ [] ∧ ' ' ∉ t ∧ '"' ∉ t) :
    ∀ acc, splitLoop (joinSpace ts) false [] acc = acc ++ ts := by
  induction ts with
  | nil => intro acc; simp [joinSpace, splitLoop]
  | cons t ts ih =>
    intro acc
    obtain ⟨hne, hs, hq⟩ := h t (by simp)
    match ts with
    | [] =>
      have h2 := splitLoop_clean_append t hs hq [] [] acc
      simp only [List.append_nil, List.nil_append] at h2
      show splitLoop t false [] acc = acc ++ [t]
      rw [h2]
      simp [splitLoop, hne]
    | u :: us =>
      show splitLoop (t ++ ' ' :: joinSpace (u :: us)) false [] acc = acc ++ t :: u :: us
      rw [splitLoop_clean_append t hs hq]
      simp only [splitLoop]
      rw [if_neg (by decide), if_pos (by simp), if_neg (by simpa using hne)]
      rw [ih (fun v hv => h v (by simp [hv]))]
      simp

theorem config_line_split_join (ts : List (List Char))
    (h : ∀ t ∈ ts, t ≠ [] ∧ ' ' ∉ t ∧ '"' ∉ t) :
    config_line_split (joinSpace ts) = ts := by
  simpa using splitLoop_join ts h []

theorem config_line_split_no_quote (line : List Char) :
    ∀ t ∈ config_line_split line, '"' ∉ t :=
  splitLoop_no_quote line false [] [] (by simp) (by simp)

theorem config_line_split_no_empty (line : List Char) :
    ∀ t ∈ config_line_split line, t ≠ [] :=
  splitLoop_no_empty line false [] [] (by simp)

theorem config_line_split_all_space (line : List Char) (h : ∀ c ∈ line, c = ' ') :
    config_line_split line = [] :=
  splitLoop_all_space line h []
/-- A token is clean when it is non-empty and has no space and no quote:
splitting a line re-identifies such tokens exactly. -/
def cleanTok (t : List Char) : Prop := t ≠ [] ∧ ' ' ∉ t ∧ '"' ∉ t

theorem cleanTok_join₂ (a : List Char) (ha : cleanTok a) (v : List Char)
    (hv : cleanTok v) : config_line_split (joinSpace [a, v]) = [a, v] := by
  refine config_line_split_join _ ?_
  intro t ht
  simp only [List.mem_cons, List.not_mem_nil, or_false] at ht
  rcases ht with h | h
  · subst h; exact ha
  · subst h; exact hv

theorem cleanTok_join₃ (a : List Char) (ha : cleanTok a) (k : List Char)
    (hk : cleanTok k) (v : List Char) (hv : cleanTok v) :
    config_line_split (joinSpace [a, k, v]) = [a, k, v] := by
  refine config_line_split_join _ ?_
  intro t ht
  simp only [List.mem_cons, List.not_mem_nil, or_false] at ht
  rcases ht with h | h | h
  · subst h; exact ha
  · subst h; exact hk
  · subst h; exact hv

theorem parse_line_sv_hostname (ex : FivemConfig → List Char → PResult)
    (cfg : FivemConfig) (v : List Char) (hv : cleanTok v) :
    parse_line ex cfg (str "sv_hostname " ++ v) = .ok { cfg with hostname := v } := by
  have hsplit : config_line_split (str "sv_hostname " ++ v) = [str "sv_hostname", v] := by
    have e : str "sv_hostname " ++ v = joinSpace [str "sv_hostname", v] := rfl
    rw [e]
    exact cleanTok_join₂ _ ⟨by decide, by decide, by decide⟩ v hv
  have hh : startsWithHash (str "sv_hostname " ++ v) = false := rfl
  simp only [parse_line, hh, hsplit, Bool.false_eq_true, if_false]
  simp

theorem parse_line_start (ex : FivemConfig → List Char → PResult)
    (cfg : FivemConfig) (v : List Char) (hv : cleanTok v) :
    parse_line ex cfg (str "start " ++ v)
      = .ok { cfg with resources := cfg.resources ++ [v] } := by
  have hsplit : config_line_split (str "start " ++ v) = [str "start", v] := by
    have e : str "start " ++ v = joinSpace [str "start", v] := rfl
    rw [e]
    exact cleanTok_join₂ _ ⟨by decide, by decide, by decide⟩ v hv
  have hh : startsWithHash (str "start " ++ v) = false := rfl
  simp only [parse_line, hh, hsplit, Bool.false_eq_true, if_false]
  rw [if_neg (by decide : ¬ str "start" = str "sv_hostname")]
  simp

theorem parse_line_ensure (ex : FivemConfig → List Char → PResult)
    (cfg : FivemConfig) (v : List Char) (hv : cleanTok v) :
    parse_line ex cfg (str "ensure " ++ v)
      = .ok { cfg with resources := cfg.resources ++ [v] } := by
  have hsplit : config_line_split (str "ensure " ++ v) = [str "ensure", v] := by
    have e : str "ensure " ++ v = joinSpace [str "ensure", v] := rfl
    rw [e]
    exact cleanTok_join₂ _ ⟨by decide, by decide, by decide⟩ v hv
  have hh : startsWithHash (str "ensure " ++ v) = false := rfl
  simp only [parse_line, hh, hsplit, Bool.false_eq_true, if_false]
  rw [if_neg (by decide : ¬ str "ensure" = str "sv_hostname")]
  simp

theorem parse_line_set (ex : FivemConfig → List Char → PResult)
    (cfg : FivemConfig) (k v : List Char) (hk : cleanTok k) (hv : cleanTok v) :
    parse_line ex cfg (str "set " ++ k ++ ' ' :: v)
      = .ok { cfg with convars := mapInsert k v cfg.convars } := by
  have hsplit : config_line_split (str "set " ++ k ++ ' ' :: v) = [str "set", k, v] := by
    have e : str "set " ++ k ++ ' ' :: v = joinSpace [str "set", k, v] := by
      show str "set " ++ k ++ ' ' :: v = str "set" ++ ' ' :: (k ++ ' ' :: v)
      simp [str]
    rw [e]
    exact cleanTok_join₃ _ ⟨by decide, by decide, by decide⟩ k hk v hv
  have hh : startsWithHash (str "set " ++ k ++ ' ' :: v) = false := by
    have e : str "set " ++ k ++ ' ' :: v = 's' :: (str "et " ++ k ++ ' ' :: v) := by
      simp [str]
    rw [e]; rfl
  simp only [parse_line, hh, hsplit, Bool.false_eq_true, if_false]
  rw [if_neg (by decide : ¬ str "set" = str "sv_hostname"),
      if_neg (by decide : ¬ (str "set" = str "start" ∨ str "set" = str "ensure"))]
  simp

theorem parse_line_set_missing_value (ex : FivemConfig → List Char → PResult)
    (cfg : FivemConfig) (k : List Char) (hk : cleanTok k) :
    parse_line ex cfg (str "set " ++ k)
      = .ok { cfg with convars := mapInsert k [] cfg.convars } := by
  have hsplit : config_line_split (str "set " ++ k) = [str "set", k] := by
    have e : str "set " ++ k = joinSpace [str "set", k] := rfl
    rw [e]
    exact cleanTok_join₂ _ ⟨by decide, by decide, by decide⟩ k hk
  have hh : startsWithHash (str "set " ++ k) = false := rfl
  simp only [parse_line, hh, hsplit, Bool.false_eq_true, if_false]
  rw [if_neg (by decide : ¬ str "set" = str "sv_hostname"),
      if_neg (by decide : ¬ (str "set" = str "start" ∨ str "set" = str "ensure"))]
  simp

theorem parse_line_setr (ex : FivemConfig → List Char → PResult)
    (cfg : FivemConfig) (k v : List Char) (hk : cleanTok k) (hv : cleanTok v) :
    parse_line ex cfg (str "setr " ++ k ++ ' ' :: v)
      = .ok { cfg with convars_replicated := mapInsert k v cfg.convars_replicated } := by
  have hsplit : config_line_split (str "setr " ++ k ++ ' ' :: v) = [str "setr", k, v] := by
    have e : str "setr " ++ k ++ ' ' :: v = joinSpace [str "setr", k, v] := by
      show str "setr " ++ k ++ ' ' :: v = str "setr" ++ ' ' :: (k ++ ' ' :: v)
      simp [str]
    rw [e]
    exact cleanTok_join₃ _ ⟨by decide, by decide, by decide⟩ k hk v hv
  have hh : startsWithHash (str "setr " ++ k ++ ' ' :: v) = false := by
    have e : str "setr " ++ k ++ ' ' :: v = 's' :: (str "etr " ++ k ++ ' ' :: v) := by
      simp [str]
    rw [e]; rfl
  simp only [parse_line, hh, hsplit, Bool.false_eq_true, if_false]
  rw [if_neg (by decide : ¬ str "setr" = str "sv_hostname"),
      if_neg (by decide : ¬ (str "setr" = str "start" ∨ str "setr" = str "ensure")),
      if_neg (by decide : ¬ str "setr" = str "set")]
  simp

theorem parse_line_setr_missing_value (ex : FivemConfig → List Char → PResult)
    (cfg : FivemConfig) (k : List Char) (hk : cleanTok k) :
    parse_line ex cfg (str "setr " ++ k)
      = .ok { cfg with convars_replicated := mapInsert k [] cfg.convars_replicated } := by
  have hsplit : config_line_split (str "setr " ++ k) = [str "setr", k] := by
    have e : str "setr " ++ k = joinSpace [str "setr", k] := rfl
    rw [e]
    exact cleanTok_join₂ _ ⟨by decide, by decide, by decide⟩ k hk
  have hh : startsWithHash (str "setr " ++ k) = false := rfl
  simp only [parse_line, hh, hsplit, Bool.false_eq_true, if_false]
  rw [if_neg (by decide : ¬ str "setr" = str "sv_hostname"),
      if_neg (by decide : ¬ (str "setr" = str "start" ∨ str "setr" = str "ensure")),
      if_neg (by decide : ¬ str "setr" = str "set")]
  simp

theorem parse_line_sv_maxclients (ex : FivemConfig → List Char → PResult)
    (cfg : FivemConfig) (v : List Char) (hv : cleanTok v) :
    parse_line ex cfg (str "sv_maxclients " ++ v)
      = match parseU16 v with
        | some n => .ok { cfg with max_clients := n }
        | none => .err "Max clients is not a number!" := by
  have hsplit : config_line_split (str "sv_maxclients " ++ v) = [str "sv_maxclients", v] := by
    have e : str "sv_maxclients " ++ v = joinSpace [str "sv_maxclients", v] := rfl
    rw [e]
    exact cleanTok_join₂ _ ⟨by decide, by decide, by decide⟩ v hv
  have hh : startsWithHash (str "sv_maxclients " ++ v) = false := rfl
  simp only [parse_line, hh, hsplit, Bool.false_eq_true, if_false]
  rw [if_neg (by decide : ¬ str "sv_maxclients" = str "sv_hostname"),
      if_neg (by decide : ¬ (str "sv_maxclients" = str "start" ∨ str "sv_maxclients" = str "ensure")),
      if_neg (by decide : ¬ str "sv_maxclients" = str "set"),
      if_neg (by decide : ¬ str "sv_maxclients" = str "setr"),
      if_neg (by decide : ¬ str "sv_maxclients" = str "sv_scriptHookAllowed"),
      if_neg (by decide : ¬ str "sv_maxclients" = str "rcon_password"),
      if_neg (by decide : ¬ str "sv_maxclients" = str "sv_licenseKey"),
      if_neg (by decide : ¬ str "sv_maxclients" = str "load_server_icon")]
  simp

theorem parse_line_exec (ex : FivemConfig → List Char → PResult)
    (cfg : FivemConfig) (v : List Char) (hv : cleanTok v) :
    parse_line ex cfg (str "exec " ++ v)
      = match ex cfg v with
        | .ok c2 => .ok c2
        | r => r := by
  have hsplit : config_line_split (str "exec " ++ v) = [str "exec", v] := by
    have e : str "exec " ++ v = joinSpace [str "exec", v] := rfl
    rw [e]
    exact cleanTok_join₂ _ ⟨by decide, by decide, by decide⟩ v hv
  have hh : startsWithHash (str "exec " ++ v) = false := rfl
  simp only [parse_line, hh, hsplit, Bool.false_eq_true, if_false]
  rw [if_neg (by decide : ¬ str "exec" = str "sv_hostname"),
      if_neg (by decide : ¬ (str "exec" = str "start" ∨ str "exec" = str "ensure")),
      if_neg (by decide : ¬ str "exec" = str "set"),
      if_neg (by decide : ¬ str "exec" = str "setr"),
      if_neg (by decide : ¬ str "exec" = str "sv_scriptHookAllowed"),
      if_neg (by decide : ¬ str "exec" = str "rcon_password"),
      if_neg (by decide : ¬ str "exec" = str "sv_licenseKey"),
      if_neg (by decide : ¬ str "exec" = str "load_server_icon"),
      if_neg (by decide : ¬ str "exec" = str "sv_maxclients")]
  simp
/-- Join lines with a given separator (to build file contents). -/
def joinSep (sep : List Char) : List (List Char) → List Char
  | [] => []
  | [l] => l
  | l :: ls => l ++ sep ++ joinSep sep ls

/-- Insert an empty line between any two adjacent lines. -/
def withBlank : List (List Char) → List (List Char)
  | [] => []
  | [l] => [l]
  | l :: ls => l :: [] :: withBlank ls

theorem map_replCR_of_no_cr (l : List Char) (h : '\r' ∉ l) :
    l.map replCR = l := by
  induction l with
  | nil => rfl
  | cons c cs ih =>
    have hc : ¬ c = '\r' := fun he => h (by simp [he])
    simp only [List.map_cons, replCR, if_neg hc]
    rw [ih (fun hm => h (by simp [hm]))]

theorem joinSep_map (f : Char → Char) (sep : List Char) (L : List (List Char)) :
    (joinSep sep L).map f = joinSep (sep.map f) (L.map (List.map f)) := by
  induction L with
  | nil => rfl
  | cons l ls ih =>
    match ls with
    | [] => rfl
    | m :: ms =>
      show (l ++ sep ++ joinSep sep (m :: ms)).map f = _
      simp only [List.map_append, ih]
      rfl

theorem map_lines_of_no_cr (L : List (List Char)) (h : ∀ l ∈ L, '\r' ∉ l) :
    L.map (List.map replCR) = L := by
  induction L with
  | nil => rfl
  | cons l ls ih =>
    simp only [List.map_cons]
    rw [map_replCR_of_no_cr l (h l (by simp)), ih (fun m hm => h m (by simp [hm]))]

theorem splitNL_ne_nil (cs : List Char) : splitNL cs ≠ [] := by
  cases cs with
  | nil => simp [splitNL]
  | cons c cs =>
    simp only [splitNL]
    rcases h : splitNL cs with _ | ⟨p, ps⟩
    · simp
    · by_cases hc : c = '\n' <;> simp [hc]

theorem splitNL_append (l : List Char) (h : '\n' ∉ l) :
    ∀ (cs p : List Char) (ps : List (List Char)), splitNL cs = p :: ps →
    splitNL (l ++ cs) = (l ++ p) :: ps := by
  induction l with
  | nil => intro cs p ps hcs; simpa using hcs
  | cons c l ih =>
    intro cs p ps hcs
    have hc : ¬ c = '\n' := fun he => h (by simp [he])
    have hrec := ih (fun hm => h (by simp [hm])) cs p ps hcs
    show splitNL (c :: (l ++ cs)) = _
    simp only [splitNL, hrec, if_neg hc, List.cons_append]

theorem splitNL_joinLF (L : List (List Char)) (h : ∀ l ∈ L, '\n' ∉ l)
    (hne : L ≠ []) : splitNL (joinSep ['\n'] L) = L := by
  induction L with
  | nil => exact absurd rfl hne
  | cons l ls ih =>
    match ls with
    | [] =>
      have h2 := splitNL_append l (h l (by simp)) [] [] [] rfl
      simp only [List.append_nil] at h2
      show splitNL l = [l]
      exact h2
    | m :: ms =>
      have hrest : splitNL (joinSep ['\n'] (m :: ms)) = m :: ms :=
        ih (fun x hx => h x (by simp [hx])) (by simp)
      have e : joinSep ['\n'] (l :: m :: ms) = l ++ '\n' :: joinSep ['\n'] (m :: ms) := by
        show l ++ ['\n'] ++ joinSep ['\n'] (m :: ms) = _
        simp [List.append_assoc]
      have hsub : splitNL ('\n' :: joinSep ['\n'] (m :: ms)) = [] :: m :: ms := by
        rw [splitNL, hrest]
        rfl
      have h2 := splitNL_append l (h l (by simp)) _ _ _ hsub
      simp only [List.append_nil] at h2
      rw [e]
      exact h2

theorem splitNL_joinCRLF (L : List (List Char)) (h : ∀ l ∈ L, '\n' ∉ l)
    (hne : L ≠ []) : splitNL (joinSep ['\n', '\n'] L) = withBlank L := by
  induction L with
  | nil => exact absurd rfl hne
  | cons l ls ih =>
    match ls with
    | [] =>
      have h2 := splitNL_append l (h l (by simp)) [] [] [] rfl
      simp only [List.append_nil] at h2
      show splitNL l = [l]
      exact h2
    | m :: ms =>
      have hrest : splitNL (joinSep ['\n', '\n'] (m :: ms)) = withBlank (m :: ms) :=
        ih (fun x hx => h x (by simp [hx])) (by simp)
      have e : joinSep ['\n', '\n'] (l :: m :: ms)
          = l ++ '\n' :: '\n' :: joinSep ['\n', '\n'] (m :: ms) := by
        show l ++ ['\n', '\n'] ++ joinSep ['\n', '\n'] (m :: ms) = _
        simp [List.append_assoc]
      rcases hw : withBlank (m :: ms) with _ | ⟨p, ps⟩
      · cases ms <;> simp [withBlank] at hw
      · have s1 : splitNL ('\n' :: joinSep ['\n', '\n'] (m :: ms)) = [] :: p :: ps := by
          rw [splitNL, hrest, hw]
          rfl
        have hsub : splitNL ('\n' :: '\n' :: joinSep ['\n', '\n'] (m :: ms))
            = [] :: [] :: p :: ps := by
          rw [splitNL, s1]
          rfl
        have h2 := splitNL_append l (h l (by simp)) _ _ _ hsub
        simp only [List.append_nil] at h2
        rw [e]
        show splitNL (l ++ '\n' :: '\n' :: joinSep ['\n', '\n'] (m :: ms))
          = l :: [] :: withBlank (m :: ms)
        rw [hw]
        exact h2

theorem parse_lines_skip_empty (ex : FivemConfig → List Char → PResult)
    (cfg : FivemConfig) (rest : List (List Char)) :
    parse_lines ex cfg ([] :: rest) = parse_lines ex cfg rest := rfl

theorem parse_lines_withBlank (ex : FivemConfig → List Char → PResult)
    (L : List (List Char)) : ∀ cfg, parse_lines ex cfg (withBlank L) = parse_lines ex cfg L := by
  induction L with
  | nil => intro cfg; rfl
  | cons l ls ih =>
    intro cfg
    match ls with
    | [] => rfl
    | m :: ms =>
      show parse_lines ex cfg (l :: [] :: withBlank (m :: ms)) = parse_lines ex cfg (l :: m :: ms)
      simp only [parse_lines]
      rcases parse_line ex cfg l with c | e | _ | _
      · exact ih c
      all_goals rfl
/-- The numeric value denoted by a digit string, accumulated left to
right from `acc`. -/
def digitsVal : List Char → Nat → Nat
  | [], acc => acc
  | c :: cs, acc => digitsVal cs (acc * 10 + (c.toNat - '0'.toNat))

theorem digitsVal_mono (ds : List Char) : ∀ acc, acc ≤ digitsVal ds acc := by
  induction ds with
  | nil => intro acc; exact Nat.le_refl acc
  | cons c cs ih =>
    intro acc
    calc acc ≤ acc * 10 + (c.toNat - '0'.toNat) := by omega
    _ ≤ digitsVal cs (acc * 10 + (c.toNat - '0'.toNat)) := ih _
    _ = digitsVal (c :: cs) acc := rfl

theorem parseU16Digits_overflow (ds : List Char) :
    ∀ acc, acc < 65536 → 65536 ≤ digitsVal ds acc → parseU16Digits ds acc = none := by
  induction ds with
  | nil =>
    intro acc hlt hge
    exact absurd hge (by simpa [digitsVal] using Nat.not_le.mpr hlt)
  | cons c cs ih =>
    intro acc hlt hge
    simp only [parseU16Digits]
    by_cases hd : c.isDigit
    · rw [if_pos hd]
      by_cases hv : acc * 10 + (c.toNat - '0'.toNat) < 65536
      · rw [if_pos hv]
        exact ih _ hv hge
      · rw [if_neg hv]
    · rw [if_neg hd]

theorem parseU16Digits_val (ds : List Char) :
    ∀ acc, (∀ c ∈ ds, c.isDigit) → digitsVal ds acc < 65536 →
    parseU16Digits ds acc = some (digitsVal ds acc) := by
  induction ds with
  | nil => intro acc _ _; rfl
  | cons c cs ih =>
    intro acc hd hlt
    simp only [parseU16Digits]
    rw [if_pos (hd c (by simp))]
    have hstep : acc * 10 + (c.toNat - '0'.toNat) < 65536 :=
      Nat.lt_of_le_of_lt (digitsVal_mono cs _) hlt
    rw [if_pos hstep]
    exact ih _ (fun x hx => hd x (by simp [hx])) hlt

theorem parseU16_big (ds : List Char) (hd : ∀ c ∈ ds, c.isDigit)
    (hne : ds ≠ []) (hbig : 65536 ≤ digitsVal ds 0) : parseU16 ds = none := by
  match ds with
  | c :: cs =>
    have hc : c.isDigit := hd c (by simp)
    have hcp : ¬ c = '+' := by
      intro he
      rw [he] at hc
      exact absurd hc (by decide)
    simp only [parseU16]
    have e : (match c :: cs with | '+' :: rest => rest | _ => c :: cs) = c :: cs := by
      cases cs <;> simp [hcp]
    rw [e, if_neg (by simp)]
    exact parseU16Digits_overflow (c :: cs) 0 (by omega) hbig

theorem parseU16_neg_sign (ds : List Char) :
    parseU16 ('-' :: ds) = none := by
  simp only [parseU16]
  have e : (match '-' :: ds with | '+' :: rest => rest | _ => '-' :: ds) = '-' :: ds := by
    cases ds <;> rfl
  rw [e, if_neg (by simp)]
  simp [parseU16Digits]

theorem digits_cleanTok (ds : List Char) (hd : ∀ c ∈ ds, c.isDigit)
    (hne : ds ≠ []) : cleanTok ds := by
  refine ⟨hne, fun hm => ?_, fun hm => ?_⟩
  · have := hd ' ' hm
    exact absurd this (by decide)
  · have := hd '"' hm
    exact absurd this (by decide)

theorem parse_lines_err (ex : FivemConfig → List Char → PResult)
    (cfg : FivemConfig) (line : List Char) (rest : List (List Char)) (e : String)
    (h : parse_line ex cfg line = .err e) :
    parse_lines ex cfg (line :: rest) = .err e := by
  simp only [parse_lines, h]

theorem parse_line_exec_err (ex : FivemConfig → List Char → PResult)
    (cfg : FivemConfig) (fname : List Char) (hf : cleanTok fname) (e : String)
    (h : ex cfg fname = .err e) :
    parse_line ex cfg (str "exec " ++ fname) = .err e := by
  rw [parse_line_exec ex cfg fname hf, h]
/-- File system for the inclusion example: a root file that only
execs a child which sets the hostname. -/
def fsChild : FS := fun n =>
  if n = str "root.cfg" then some (str "exec child.cfg")
  else if n = str "child.cfg" then some (str "sv_hostname \"Child Server\"")
  else none

/-- Root overwrites after the included file. -/
def fsChildThenRoot : FS := fun n =>
  if n = str "root.cfg" then some (str "exec child.cfg\nsv_hostname \"Root Last\"")
  else if n = str "child.cfg" then some (str "sv_hostname \"Child Server\"")
  else none

/-- Root sets the hostname before the included file. -/
def fsRootThenChild : FS := fun n =>
  if n = str "root.cfg" then some (str "sv_hostname \"Root First\"\nexec child.cfg")
  else if n = str "child.cfg" then some (str "sv_hostname \"Child Server\"")
  else none

/-- A parent file execing a file whose first line fails hard; later
lines of both files would set the hostname. -/
def fsBadNested : FS := fun n =>
  if n = str "parent.cfg" then some (str "exec bad.cfg\nsv_hostname Y")
  else if n = str "bad.cfg" then some (str "sv_maxclients abc\nsv_hostname X")
  else none

/-- A config whose only line is a well-formed max-clients directive. -/
def fsMax32 : FS := fun n =>
  if n = str "server.cfg" then some (str "sv_maxclients 32") else none

/-- A config whose only line is a non-numeric max-clients directive. -/
def fsMaxAbc : FS := fun n =>
  if n = str "server.cfg" then some (str "sv_maxclients abc") else none

/-- A config whose only line is a bare `sv_hostname` keyword. -/
def fsBareHostname : FS := fun n =>
  if n = str "server.cfg" then some (str "sv_hostname") else none

/-- A config setting the same convar twice. -/
def fsSetTwice : FS := fun n =>
  if n = str "server.cfg" then some (str "set FOO bar\nset FOO baz") else none

/-- A config starting the same resource twice. -/
def fsStartTwice : FS := fun n =>
  if n = str "server.cfg" then some (str "start a\nstart a") else none

/-- Claim C1: directives are processed in file-then-line order: an
`exec` line parses the named file completely (depth-first) into the
shared record before the following lines run, the spec's child-hostname
example holds, and a later hostname directive overwrites an earlier
one whichever file each came from. -/
theorem c1_exec_depth_first_order :
    (∀ (ex : FivemConfig → List Char → PResult) (cfg : FivemConfig)
      (fname : List Char) (rest : List (List Char)), cleanTok fname →
      parse_lines ex cfg ((str "exec " ++ fname) :: rest)
        = match ex cfg fname with
          | .ok c => parse_lines ex c rest
          | r => r)
    ∧ hostnameOf (read_config_file 2 fsChild (str "root.cfg")) = some (str "Child Server")
    ∧ hostnameOf (read_config_file 2 fsChildThenRoot (str "root.cfg")) = some (str "Root Last")
    ∧ hostnameOf (read_config_file 2 fsRootThenChild (str "root.cfg")) = some (str "Child Server") := by
  refine ⟨?_, rfl, rfl, rfl⟩
  intro ex cfg fname rest hf
  simp only [parse_lines]
  rw [parse_line_exec ex cfg fname hf]
  cases hx : ex cfg fname <;> rfl

/-- Witness for C1: the depth-first clause applied to a concrete
handler that runs out of fuel, whose outcome is returned unchanged. -/
theorem c1_witness :
    parse_lines (fun _ _ => PResult.nofuel) defaultConfig
      ((str "exec " ++ str "a.cfg") :: []) = PResult.nofuel := by
  have h := c1_exec_depth_first_order.1 (fun _ _ => PResult.nofuel) defaultConfig
    (str "a.cfg") [] ⟨by decide, by decide, by decide⟩
  simpa using h

/-- Counterexample for C2: a line consisting of a single tab character
is entirely whitespace, yet the tokenizer emits it as a one-character
token rather than the empty sequence (only spaces delimit tokens). -/
theorem c2_counterexample :
    config_line_split (str "\t") = [str "\t"]
    ∧ ¬ config_line_split (str "\t") = [] := by
  exact ⟨by decide, by decide⟩

/-- Claim C2 (amended: "entirely whitespace" must read "entirely space
characters"): quotes toggle the quoted-span flag and never appear in a
token, no empty tokens are produced, a line that is empty or all
spaces yields no tokens, and the quoted example keeps its inner space. -/
theorem c2_tokenizer :
    (∀ (line : List Char), ∀ t ∈ config_line_split line, '"' ∉ t)
    ∧ (∀ (line : List Char), ∀ t ∈ config_line_split line, t ≠ [])
    ∧ (∀ (line : List Char), (∀ c ∈ line, c = ' ') → config_line_split line = [])
    ∧ config_line_split (str "set NAME \"hello world\"")
        = [str "set", str "NAME", str "hello world"] := by
  exact ⟨config_line_split_no_quote, config_line_split_no_empty,
    config_line_split_all_space, by decide⟩

/-- Witness for C2: an all-space line tokenizes to nothing. -/
theorem c2_witness : config_line_split (str "   ") = [] :=
  c2_tokenizer.2.2.1 (str "   ") (by decide)

/-- Claim C3: the first hard error aborts everything: an erring line
stops the current file whatever lines follow, an erring `exec` aborts
the including file with the same error unchanged, `read_config_file`
returns the error (an `err` carries no record), and the nested
concrete example returns the max-clients error. -/
theorem c3_first_error_aborts :
    (∀ (ex : FivemConfig → List Char → PResult) (cfg : FivemConfig)
      (line : List Char) (rest : List (List Char)) (e : String),
      parse_line ex cfg line = .err e →
      parse_lines ex cfg (line :: rest) = .err e)
    ∧ (∀ (fuel : Nat) (fs : FS) (cfg : FivemConfig) (fname : List Char)
      (rest : List (List Char)) (e : String), cleanTok fname →
      parse_file fuel fs cfg fname = .err e →
      parse_lines (fun c n => parse_file fuel fs c n) cfg
        ((str "exec " ++ fname) :: rest) = .err e)
    ∧ (∀ (fuel : Nat) (fs : FS) (name : List Char) (e : String),
      parse_file fuel fs defaultConfig name = .err e →
      read_config_file fuel fs name = .err e)
    ∧ read_config_file 2 fsBadNested (str "parent.cfg")
        = .err "Max clients is not a number!" := by
  refine ⟨parse_lines_err, ?_, fun fuel fs name e h => h, rfl⟩
  intro fuel fs cfg fname rest e hf herr
  exact parse_lines_err _ _ _ _ _ (parse_line_exec_err _ _ _ hf _ herr)

/-- Witness for C3: a failing max-clients line aborts a file even when
a hostname line follows it. -/
theorem c3_witness :
    parse_lines (fun _ _ => PResult.nofuel) defaultConfig
      [str "sv_maxclients x", str "sv_hostname A"]
      = PResult.err "Max clients is not a number!" :=
  c3_first_error_aborts.1 (fun _ _ => PResult.nofuel) defaultConfig
    (str "sv_maxclients x") [str "sv_hostname A"] _ rfl

/-- Claim C4: a numeric `sv_maxclients` argument sets `max_clients` to
its value, a non-numeric one is the hard malformed-scalar error,
and the concrete `32` / `abc` examples behave accordingly. -/
theorem c4_maxclients :
    (∀ (ex : FivemConfig → List Char → PResult) (cfg : FivemConfig)
      (v : List Char) (n : Nat), cleanTok v → parseU16 v = some n →
      parse_line ex cfg (str "sv_maxclients " ++ v)
        = .ok { cfg with max_clients := n })
    ∧ (∀ (ex : FivemConfig → List Char → PResult) (cfg : FivemConfig)
      (v : List Char), cleanTok v → parseU16 v = none →
      parse_line ex cfg (str "sv_maxclients " ++ v)
        = .err "Max clients is not a number!")
    ∧ maxClientsOf (read_config_file 1 fsMax32 (str "server.cfg")) = some 32
    ∧ read_config_file 1 fsMaxAbc (str "server.cfg")
        = .err "Max clients is not a number!" := by
  refine ⟨?_, ?_, rfl, rfl⟩
  · intro ex cfg v n hv hsome
    rw [parse_line_sv_maxclients ex cfg v hv, hsome]
  · intro ex cfg v hv hnone
    rw [parse_line_sv_maxclients ex cfg v hv, hnone]

/-- Witness for C4: the numeric clause at `32`, the error clause at `abc`. -/
theorem c4_witness :
    parse_line (fun _ _ => PResult.nofuel) defaultConfig
      (str "sv_maxclients " ++ str "32")
      = PResult.ok { defaultConfig with max_clients := 32 }
    ∧ parse_line (fun _ _ => PResult.nofuel) defaultConfig
      (str "sv_maxclients " ++ str "abc")
      = PResult.err "Max clients is not a number!" :=
  ⟨c4_maxclients.1 _ defaultConfig (str "32") 32 ⟨by decide, by decide, by decide⟩ (by decide),
   c4_maxclients.2.1 _ defaultConfig (str "abc") ⟨by decide, by decide, by decide⟩ (by decide)⟩

/-- Counterexample for C5: a line holding only the directive keyword
`sv_hostname` is not skipped as a no-op: `parts[1]` is indexed out of
bounds, a panic, so the parse does not return the unchanged record. -/
theorem c5_counterexample :
    read_config_file 1 fsBareHostname (str "server.cfg") = PResult.panic
    ∧ ¬ read_config_file 1 fsBareHostname (str "server.cfg")
        = PResult.ok defaultConfig :=
  ⟨rfl, fun h => PResult.noConfusion h⟩

/-- Claim C5 (amended): a line consisting of exactly one recognized
argument-taking directive keyword causes an out-of-bounds panic that
aborts the parse with no record, rather than being skipped as a no-op. -/
theorem c5_bare_directive_panics :
    ∀ (ex : FivemConfig → List Char → PResult) (cfg : FivemConfig)
      (kw : List Char),
      kw ∈ [str "sv_hostname", str "start", str "ensure", str "set",
        str "setr", str "sv_scriptHookAllowed", str "rcon_password",
        str "sv_licenseKey", str "load_server_icon", str "sv_maxclients",
        str "exec"] →
      parse_line ex cfg kw = PResult.panic := by
  intro ex cfg kw h
  simp only [List.mem_cons, List.not_mem_nil, or_false] at h
  rcases h with h | h | h | h | h | h | h | h | h | h | h <;> subst h <;> rfl

/-- Witness for C5: the bare `sv_hostname` keyword panics. -/
theorem c5_witness :
    parse_line (fun _ _ => PResult.nofuel) defaultConfig (str "sv_hostname")
      = PResult.panic :=
  c5_bare_directive_panics _ defaultConfig (str "sv_hostname") (by simp)
/-- Claim C6: `set K V` inserts or overwrites the convar at `K` with
`V` (and the updated map yields `V` at `K`), `set K` alone maps `K` to
the empty string, the concrete double-`set` example is last-write-wins,
and `setr` does the same on the separate replicated map. -/
theorem c6_set_semantics :
    (∀ (ex : FivemConfig → List Char → PResult) (cfg : FivemConfig)
      (k v : List Char), cleanTok k → cleanTok v →
      parse_line ex cfg (str "set " ++ k ++ ' ' :: v)
        = .ok { cfg with convars := mapInsert k v cfg.convars }
      ∧ mapInsert k v cfg.convars k = some v)
    ∧ (∀ (ex : FivemConfig → List Char → PResult) (cfg : FivemConfig)
      (k : List Char), cleanTok k →
      parse_line ex cfg (str "set " ++ k)
        = .ok { cfg with convars := mapInsert k [] cfg.convars })
    ∧ (∀ (ex : FivemConfig → List Char → PResult) (cfg : FivemConfig)
      (k v : List Char), cleanTok k → cleanTok v →
      parse_line ex cfg (str "setr " ++ k ++ ' ' :: v)
        = .ok { cfg with convars_replicated := mapInsert k v cfg.convars_replicated })
    ∧ (∀ (ex : FivemConfig → List Char → PResult) (cfg : FivemConfig)
      (k : List Char), cleanTok k →
      parse_line ex cfg (str "setr " ++ k)
        = .ok { cfg with convars_replicated := mapInsert k [] cfg.convars_replicated })
    ∧ convarOf (str "FOO") (read_config_file 1 fsSetTwice (str "server.cfg"))
        = some (str "baz") := by
  refine ⟨?_, parse_line_set_missing_value, parse_line_setr,
    parse_line_setr_missing_value, rfl⟩
  intro ex cfg k v hk hv
  exact ⟨parse_line_set ex cfg k v hk hv, by simp [mapInsert]⟩

/-- Witness for C6: a concrete `set` line and a concrete `setr` line. -/
theorem c6_witness :
    parse_line (fun _ _ => PResult.nofuel) defaultConfig
      (str "set " ++ str "FOO" ++ ' ' :: str "bar")
      = PResult.ok { defaultConfig with
          convars := mapInsert (str "FOO") (str "bar") defaultConfig.convars }
    ∧ parse_line (fun _ _ => PResult.nofuel) defaultConfig (str "set " ++ str "K")
      = PResult.ok { defaultConfig with
          convars := mapInsert (str "K") [] defaultConfig.convars } :=
  ⟨(c6_set_semantics.1 _ defaultConfig (str "FOO") (str "bar")
      ⟨by decide, by decide, by decide⟩ ⟨by decide, by decide, by decide⟩).1,
   c6_set_semantics.2.1 _ defaultConfig (str "K") ⟨by decide, by decide, by decide⟩⟩

/-- Claim C7: each `start` or `ensure` directive appends its argument
to the end of the resources list, and the concrete duplicate example
keeps both occurrences in order. -/
theorem c7_resources_append :
    (∀ (ex : FivemConfig → List Char → PResult) (cfg : FivemConfig)
      (v : List Char), cleanTok v →
      parse_line ex cfg (str "start " ++ v)
        = .ok { cfg with resources := cfg.resources ++ [v] })
    ∧ (∀ (ex : FivemConfig → List Char → PResult) (cfg : FivemConfig)
      (v : List Char), cleanTok v →
      parse_line ex cfg (str "ensure " ++ v)
        = .ok { cfg with resources := cfg.resources ++ [v] })
    ∧ resourcesOf (read_config_file 1 fsStartTwice (str "server.cfg"))
        = some [str "a", str "a"] :=
  ⟨parse_line_start, parse_line_ensure, rfl⟩

/-- Witness for C7: one concrete `start` and one concrete `ensure`. -/
theorem c7_witness :
    parse_line (fun _ _ => PResult.nofuel) defaultConfig (str "start " ++ str "a")
      = PResult.ok { defaultConfig with resources := defaultConfig.resources ++ [str "a"] }
    ∧ parse_line (fun _ _ => PResult.nofuel) defaultConfig (str "ensure " ++ str "b")
      = PResult.ok { defaultConfig with resources := defaultConfig.resources ++ [str "b"] } :=
  ⟨c7_resources_append.1 _ defaultConfig (str "a") ⟨by decide, by decide, by decide⟩,
   c7_resources_append.2.1 _ defaultConfig (str "b") ⟨by decide, by decide, by decide⟩⟩

/-- Claim C8: carriage returns are normalised to line feeds before the
contents are split into lines, so for any sequence of lines the CRLF
and CR-only joinings parse to exactly the same outcome as the LF one. -/
theorem c8_line_endings_equivalent :
    ∀ (fuel : Nat) (fs : FS) (cfg : FivemConfig) (L : List (List Char)),
      (∀ l ∈ L, '\r' ∉ l ∧ '\n' ∉ l) →
      parse_content fuel fs cfg (joinSep (str "\r\n") L)
        = parse_content fuel fs cfg (joinSep (str "\n") L)
      ∧ parse_content fuel fs cfg (joinSep (str "\r") L)
        = parse_content fuel fs cfg (joinSep (str "\n") L) := by
  intro fuel fs cfg L h
  have hcr : ∀ l ∈ L, '\r' ∉ l := fun l hl => (h l hl).1
  have hnl : ∀ l ∈ L, '\n' ∉ l := fun l hl => (h l hl).2
  have e1 : str "\r\n" = ['\r', '\n'] := rfl
  have e2 : str "\r" = ['\r'] := rfl
  have e3 : str "\n" = ['\n'] := rfl
  rw [e1, e2, e3]
  have hmaplf : (joinSep ['\n'] L).map replCR = joinSep ['\n'] L := by
    rw [joinSep_map, map_lines_of_no_cr L hcr]
    rfl
  have hmapcr : (joinSep ['\r'] L).map replCR = joinSep ['\n'] L := by
    rw [joinSep_map, map_lines_of_no_cr L hcr]
    rfl
  have hmapcrlf : (joinSep ['\r', '\n'] L).map replCR = joinSep ['\n', '\n'] L := by
    rw [joinSep_map, map_lines_of_no_cr L hcr]
    rfl
  constructor
  · match L with
    | [] => rfl
    | l :: ls =>
      simp only [parse_content, toLines, hmaplf, hmapcrlf]
      rw [splitNL_joinCRLF (l :: ls) hnl (by simp),
          splitNL_joinLF (l :: ls) hnl (by simp)]
      exact parse_lines_withBlank _ (l :: ls) cfg
  · simp only [parse_content, toLines, hmapcr, hmaplf]

/-- Witness for C8: a concrete two-line file in the three encodings. -/
theorem c8_witness :
    parse_content 0 (fun _ => none) defaultConfig
        (joinSep (str "\r\n") [str "sv_hostname A", str "start r"])
      = parse_content 0 (fun _ => none) defaultConfig
        (joinSep (str "\n") [str "sv_hostname A", str "start r"])
    ∧ parse_content 0 (fun _ => none) defaultConfig
        (joinSep (str "\r") [str "sv_hostname A", str "start r"])
      = parse_content 0 (fun _ => none) defaultConfig
        (joinSep (str "\n") [str "sv_hostname A", str "start r"]) :=
  c8_line_endings_equivalent 0 (fun _ => none) defaultConfig
    [str "sv_hostname A", str "start r"] (by decide)

/-- Counterexample for C9: the balanced-quote line
`set NAME "hello world"` tokenizes to a token holding a space, so
rejoining with single spaces and re-tokenizing splits that token and
does not reproduce the first token sequence. -/
theorem c9_counterexample :
    balancedQuotes (str "set NAME \"hello world\"")
    ∧ ¬ config_line_split (joinSpace (config_line_split (str "set NAME \"hello world\"")))
        = config_line_split (str "set NAME \"hello world\"") := by
  exact ⟨by unfold balancedQuotes; decide, by decide⟩

/-- Claim C9 (amended: restricted to lines none of whose tokens keeps
a quoted space): for a balanced-quote line whose tokens are space-free,
tokenizing the rejoined token sequence reproduces it exactly. -/
theorem c9_retokenize_idempotent :
    ∀ (line : List Char), balancedQuotes line →
      (∀ t ∈ config_line_split line, ' ' ∉ t) →
      config_line_split (joinSpace (config_line_split line))
        = config_line_split line := by
  intro line _ hs
  refine config_line_split_join _ ?_
  intro t ht
  exact ⟨config_line_split_no_empty line t ht, hs t ht,
    config_line_split_no_quote line t ht⟩

/-- Witness for C9: the amended property at a concrete quote-free line. -/
theorem c9_witness :
    config_line_split (joinSpace (config_line_split (str "set  FOO   bar")))
      = config_line_split (str "set  FOO   bar") :=
  c9_retokenize_idempotent (str "set  FOO   bar")
    (by unfold balancedQuotes; decide) (by decide)

/-- Claim C10: a well-formed decimal numeral denoting a value above
65535, or any negative numeral, makes `sv_maxclients` fail with the
same hard error as a non-numeric token — never wrapped or clamped. -/
theorem c10_maxclients_out_of_range :
    ∀ (ex : FivemConfig → List Char → PResult) (cfg : FivemConfig)
      (ds : List Char), (∀ c ∈ ds, c.isDigit) → ds ≠ [] →
      (65535 < digitsVal ds 0 →
        parse_line ex cfg (str "sv_maxclients " ++ ds)
          = .err "Max clients is not a number!")
      ∧ parse_line ex cfg (str "sv_maxclients " ++ '-' :: ds)
          = .err "Max clients is not a number!" := by
  intro ex cfg ds hd hne
  constructor
  · intro hbig
    rw [parse_line_sv_maxclients ex cfg ds (digits_cleanTok ds hd hne),
        parseU16_big ds hd hne (by omega)]
  · have hclean : cleanTok ('-' :: ds) := by
      obtain ⟨_, hs, hq⟩ := digits_cleanTok ds hd hne
      refine ⟨by simp, fun hm => ?_, fun hm => ?_⟩
      · rcases List.mem_cons.mp hm with h | h
        · exact absurd h (by decide)
        · exact hs h
      · rcases List.mem_cons.mp hm with h | h
        · exact absurd h (by decide)
        · exact hq h
    rw [parse_line_sv_maxclients ex cfg ('-' :: ds) hclean, parseU16_neg_sign]

/-- Witness for C10: `65536` overflows and `-1` is negative; both err. -/
theorem c10_witness :
    parse_line (fun _ _ => PResult.nofuel) defaultConfig
      (str "sv_maxclients " ++ str "65536")
      = PResult.err "Max clients is not a number!"
    ∧ parse_line (fun _ _ => PResult.nofuel) defaultConfig
      (str "sv_maxclients " ++ '-' :: str "1")
      = PResult.err "Max clients is not a number!" :=
  ⟨(c10_maxclients_out_of_range _ defaultConfig (str "65536")
      (by decide) (by decide)).1 (by decide),
   (c10_maxclients_out_of_range _ defaultConfig (str "1")
      (by decide) (by decide)).2⟩
